import Mathlib

/-!
Verification of the reconciliation + batch-correction engine of
`ofrecimientos-docentes/verificar-ofrecimientos`.

The engine lives in `src/ai/observaciones/`:
* `preparar_observaciones.py` — the reconciler `preparar`, which diffs the
  source table (`id`, `observaciones`) against the persisted table
  (`id`, `observaciones_original`, `observaciones_final`);
* `procesar_observaciones.py` — the processing run `procesar`: credential
  check, pending-set computation, the bounded retry loop around `_call_batch`,
  and the merge of the accumulated results back into the persisted table;
* `main.py` — the entry point, which runs `preparar` and then `procesar`.

Tables are embedded as lists of records.  The engine loads both CSVs with
`unique(subset="id", keep="last")`, so the loaded tables are key-unique; the
polars id-keyed joins are therefore embedded as id lookups, and `keep="last"`
deduplication is `uniqueKeepLast`.  The external oracle (Gemini) is embedded
as a function parameter giving, per attempt and batch, the correction list
that `_call_batch` (wrapped in `procesar`'s `try/except`) produces.
-/

namespace Obs

/-- A row of `data/observaciones.csv` as loaded by `_read_input`:
columns `id` (Int64) and `observaciones` (Utf8). -/
structure SourceRow where
  id : Int
  observaciones : String
deriving DecidableEq, Repr

/-- A row of `data/observaciones_final.csv` as loaded by
`_read_or_empty_output`: columns `id`, `observaciones_original`,
`observaciones_final` (nullable — `none` is a pending row). -/
structure PersistedRow where
  id : Int
  observaciones_original : String
  observaciones_final : Option String
deriving DecidableEq, Repr

/-- Polars `unique(subset=key, keep="last")`: keep, for each key, the last
occurrence. -/
def uniqueKeepLast (key : α → Int) : List α → List α
  | [] => []
  | x :: xs =>
    if key x ∈ xs.map key then uniqueKeepLast key xs
    else x :: uniqueKeepLast key xs

/-- Id-keyed lookup into the source table; embeds the polars joins
`on="id"` against the key-unique loaded source table. -/
def lookupSource (dfIn : List SourceRow) (i : Int) : Option SourceRow :=
  dfIn.find? (fun s => s.id = i)

/-- The `sort("id")` order on persisted rows. -/
def leById (a b : PersistedRow) : Prop :=
  a.id ≤ b.id

instance : DecidableRel leById := fun a b => inferInstanceAs (Decidable (a.id ≤ b.id))

instance : IsTotal PersistedRow leById := ⟨fun a b => Int.le_total a.id b.id⟩

instance : IsTrans PersistedRow leById := ⟨fun _ _ _ h h' => le_trans h h'⟩

/-- Step 2 of `preparar` (preparar_observaciones.py lines 60-82), per row:
after the left join of the source onto the persisted table, when the source
text exists and differs from `observaciones_original`, replace the original
with the current source text and null out `observaciones_final`; otherwise
keep the row. -/
def prepararUpdate (dfIn : List SourceRow) (r : PersistedRow) : PersistedRow :=
  match lookupSource dfIn r.id with
  | some s =>
    if s.observaciones ≠ r.observaciones_original then
      { id := r.id, observaciones_original := s.observaciones,
        observaciones_final := none }
    else r
  | none => r

/-- Steps 1-2 of `preparar` (lines 57-82): keep only persisted rows whose id
still appears in the source (`join(df_in.select("id"), how="inner")`), then
apply the change-invalidation update. -/
def prepararStep2 (dfIn : List SourceRow) (dfOut : List PersistedRow) : List PersistedRow :=
  (dfOut.filter (fun r => dfIn.any (fun s => s.id = r.id))).map (prepararUpdate dfIn)

/-- Step 3 of `preparar` (lines 84-90): a fresh pending row for every source
id with no surviving persisted row (`anti` join). -/
def prepararNuevos (dfIn : List SourceRow) (dfOut : List PersistedRow) : List PersistedRow :=
  (dfIn.filter (fun s => ¬ (prepararStep2 dfIn dfOut).any (fun r => r.id = s.id))).map
    (fun s =>
      { id := s.id, observaciones_original := s.observaciones,
        observaciones_final := none })

/-- `preparar` (src/ai/observaciones/preparar_observaciones.py, lines
45-105), on the two loaded tables: concatenate the updated surviving rows
with the fresh pending rows, dedupe by id keeping the last row, and sort by
id (lines 92-96). -/
def preparar (dfIn : List SourceRow) (dfOut : List PersistedRow) : List PersistedRow :=
  List.insertionSort leById (uniqueKeepLast (fun r => r.id)
    (prepararStep2 dfIn dfOut ++ prepararNuevos dfIn dfOut))

/-! ### Oracle call (`_call_batch`, procesar_observaciones.py lines 71-104) -/

/-- The pydantic `Correction` model: `{id: int, observaciones_final: str}`. -/
structure Correction where
  id : Int
  observaciones_final : String
deriving DecidableEq, Repr

/-- JSON values, for the `json.loads` fallback path of `_call_batch`. -/
inductive JValue where
  | null
  | bool (b : Bool)
  | int (n : Int)
  | str (s : String)
  | list (items : List JValue)
  | dict (fields : List (String × JValue))

/-- Key lookup in a decoded JSON object; `json.loads` keeps the last
occurrence of a duplicated key. -/
def jGet (fields : List (String × JValue)) (k : String) : Option JValue :=
  (fields.reverse.find? (fun p => p.1 = k)).map (fun p => p.2)

/-- `Correction(**it)`: pydantic validation of one response item.  `none`
models a raised `ValidationError` (the id must be an integer and the
correction a string; extra keys are ignored by the default model config). -/
def mkCorrection (fields : List (String × JValue)) : Option Correction :=
  match jGet fields "id", jGet fields "observaciones_final" with
  | some (.int n), some (.str s) => some ⟨n, s⟩
  | _, _ => none

/-- The item loop of `_call_batch`'s fallback (lines 97-102): items that are
not dicts, or lack one of the two keys, are skipped; an item that has both
keys but fails validation raises, aborting the whole parse (`none`). -/
def parseItems : List JValue → Option (List Correction)
  | [] => some []
  | it :: rest =>
    match it with
    | .dict fields =>
      if (jGet fields "id").isSome && (jGet fields "observaciones_final").isSome then
        match mkCorrection fields with
        | some c => (parseItems rest).map (fun l => c :: l)
        | none => none
      else parseItems rest
    | _ => parseItems rest

/-- The `resp.text` fallback input: empty/whitespace-only text, text that is
not valid JSON, or a decoded JSON value. -/
inductive RespText where
  | empty
  | invalid
  | json (v : JValue)

/-- A `generate_content` response: `parsed` is `some l` when `resp.parsed`
is a list (`none` when it is not a list or accessing it raised), and `text`
is the raw-text fallback. -/
structure GenResponse where
  parsed : Option (List Correction)
  text : RespText

/-- Outcome of one oracle call: either `generate_content` raised (`exn`,
caught by `procesar`'s `try/except` around `_call_batch`), or it returned a
response. -/
inductive CallOutcome where
  | exn
  | resp (r : GenResponse)

/-- Lines 92-104 of `_call_batch`: strip the text; empty text or a JSON
decoding error gives `[]`; a decoded non-list gives `[]`; a decoded list is
fed through the item loop, any validation error giving `[]`. -/
def parseTextCorrections : RespText → List Correction
  | .empty => []
  | .invalid => []
  | .json (.list items) =>
    match parseItems items with
    | some out => out
    | none => []
  | .json _ => []

/-- `_call_batch` together with the `try/except` wrapper at its call site in
`procesar` (lines 143-146): a raised call yields `[]`; a parsed list is
returned as-is; otherwise the raw-text fallback is parsed.  Total — no
failure is propagated to the retry loop. -/
def callBatch : CallOutcome → List Correction
  | .exn => []
  | .resp r =>
    match r.parsed with
    | some l => l
    | none => parseTextCorrections r.text

/-! ### Retry loop (`procesar`, lines 131-158; identical in
`ai/observaciones.py` `process_all`, lines 137-176) -/

/-- `MAX_ATTEMPTS = 3` (procesar_observaciones.py line 13). -/
def MAX_ATTEMPTS : Nat := 3

/-- `BATCH_SIZE = 100` (procesar_observaciones.py line 15). -/
def BATCH_SIZE : Nat := 100

/-- Recursion worker for `chunked`: peel one chunk per step, with the list
length as structural fuel. -/
def chunkedAux (n : Nat) : Nat → List α → List (List α)
  | 0, _ => []
  | _ + 1, [] => []
  | fuel + 1, x :: xs => (x :: xs.take (n - 1)) :: chunkedAux n fuel (xs.drop (n - 1))

/-- `pending[i : i + BATCH_SIZE]` slicing of the batch loop: split a list
into consecutive chunks of `n` elements (the code only uses `n = BATCH_SIZE
≥ 1`). -/
def chunked (n : Nat) (l : List α) : List (List α) :=
  chunkedAux n l.length l

/-- The accumulated results dict `results: Dict[int, str]`, as an
association list in insertion order. -/
def Results := List (Int × String)

/-- `results[k] = v`: overwrite in place if the key exists, else append. -/
def dictInsert (m : List (Int × String)) (k : Int) (v : String) : List (Int × String) :=
  if m.any (fun p => p.1 = k) then
    m.map (fun p => if p.1 = k then (k, v) else p)
  else m ++ [(k, v)]

/-- The keys of the results dict. -/
def dictKeys (m : List (Int × String)) : List Int :=
  m.map (fun p => p.1)

/-- `results.get(k)`. -/
def dictFind (m : List (Int × String)) (k : Int) : Option String :=
  (m.find? (fun p => p.1 = k)).map (fun p => p.2)

/-- The `for c in corr` loop (lines 148-151): record every correction whose
id belongs to the batch (`c.id in ids`), accumulating the `got` set; the
`isinstance(c.observaciones_final, str)` test is always true for a
well-typed `Correction`. -/
def recordCorr (ids : List Int) :
    List Correction → List (Int × String) → List Int → List (Int × String) × List Int
  | [], results, got => (results, got)
  | c :: rest, results, got =>
    if c.id ∈ ids then
      recordCorr ids rest (dictInsert results c.id c.observaciones_final) (c.id :: got)
    else recordCorr ids rest results got

/-- One batch iteration (lines 141-154): dispatch the batch, record the
corrections whose id is in the batch, and re-enqueue the batch items whose
id was not obtained.  `corr` is the correction list the dispatched call
produced. -/
def procBatch (corr : List Correction) (batch : List SourceRow)
    (results : List (Int × String)) : List (Int × String) × List Int × List SourceRow :=
  let rc := recordCorr (batch.map (fun x => x.id)) corr results []
  (rc.1, rc.2, batch.filter (fun item => ¬ item.id ∈ rc.2))

/-- The `for i in range(0, len(pending), BATCH_SIZE)` loop body over an
already-chunked pending list: fold the batches in order, threading the
results dict and concatenating the `new_pending` items. -/
def runBatches (corrOf : List SourceRow → List Correction)
    (results : List (Int × String)) :
    List (List SourceRow) → List (Int × String) × List SourceRow
  | [] => (results, [])
  | b :: bs =>
    let pb := procBatch (corrOf b) b results
    let rest := runBatches corrOf pb.1 bs
    (rest.1, pb.2.2 ++ rest.2)

/-- Result of the retry loop: the accumulated results dict, the ids still
pending, and the batches dispatched, grouped by attempt. -/
structure LoopOut where
  results : List (Int × String)
  remaining : List SourceRow
  batches : List (List (List SourceRow))
deriving DecidableEq, Repr

/-- `while pending and attempt <= MAX_ATTEMPTS` (lines 136-158): each
attempt chunks the current pending list into batches of `BATCH_SIZE`,
dispatches every batch (the oracle's corrections for attempt `a` and batch
`b` are `oracle a b`), and continues with the re-enqueued items; `fuel` is
the number of attempts still allowed (`MAX_ATTEMPTS - attempt + 1`).  The
`time.sleep(RETRY_SECONDS)` cool-down has no effect on the data. -/
def runLoop (oracle : Nat → List SourceRow → List Correction) :
    Nat → Nat → List (Int × String) → List SourceRow → LoopOut
  | _, 0, results, pending => ⟨results, pending, []⟩
  | attempt, fuel + 1, results, pending =>
    if pending.isEmpty then ⟨results, pending, []⟩
    else
      let bs := chunked BATCH_SIZE pending
      let rb := runBatches (oracle attempt) results bs
      let rest := runLoop oracle (attempt + 1) fuel rb.1 rb.2
      ⟨rest.results, rest.remaining, bs :: rest.batches⟩

/-! ### Pending-set computation and merge (`procesar`, lines 114-129 and
163-197) -/

/-- Lines 114-123: with no persisted table, everything is to do; otherwise
the source rows whose id has a pending persisted row
(`observaciones_final` null). -/
def dfTodo (dfIn : List SourceRow) (dfOut : List PersistedRow) : List SourceRow :=
  if dfOut.isEmpty then dfIn
  else dfIn.filter (fun s =>
    dfOut.any (fun r => r.id = s.id && r.observaciones_final = none))

/-- The per-row effect of the merge joins (lines 180-193): coalesce the new
correction over the stored one, and re-sync `observaciones_original` to the
current source text when the id is still in the source. -/
def mergeRow (dfIn : List SourceRow) (results : List (Int × String))
    (r : PersistedRow) : PersistedRow :=
  { id := r.id,
    observaciones_original :=
      match lookupSource dfIn r.id with
      | some s => s.observaciones
      | none => r.observaciones_original,
    observaciones_final :=
      match dictFind results r.id with
      | some v => some v
      | none => r.observaciones_final }

/-- The merge of lines 180-197 (persisted table present): left-join the
results and the source onto the persisted table, apply `mergeRow`, dedupe
by id keeping the last row, and sort by id. -/
def merge (dfIn : List SourceRow) (dfOut : List PersistedRow)
    (results : List (Int × String)) : List PersistedRow :=
  List.insertionSort leById
    (uniqueKeepLast (fun r => r.id) (dfOut.map (mergeRow dfIn results)))

/-- The from-scratch build of lines 169-177 (no persisted table): left-join
the results onto the source and sort by id. -/
def mergeFromScratch (dfIn : List SourceRow)
    (results : List (Int × String)) : List PersistedRow :=
  List.insertionSort leById
    (dfIn.map (fun s =>
      { id := s.id, observaciones_original := s.observaciones,
        observaciones_final := dictFind results s.id }))

/-! ### The run (`procesar`, lines 107-205, and `main`, main.py lines
11-19) -/

/-- Dataset I/O events of a run, in order. -/
inductive Ev where
  | readInput
  | readPersisted
  | writePersisted
  | oracleCall (batch : List SourceRow)
deriving DecidableEq, Repr

/-- The fatal errors a run can raise. -/
inductive RunErr where
  | missingInputFile
  | missingApiKey
  | noCorrections
deriving DecidableEq, Repr

instance : DecidableEq (Except RunErr (List PersistedRow)) := fun a b =>
  match a, b with
  | .error e, .error e' =>
    if h : e = e' then .isTrue (by rw [h]) else .isFalse (by simp [h])
  | .ok v, .ok v' =>
    if h : v = v' then .isTrue (by rw [h]) else .isFalse (by simp [h])
  | .error _, .ok _ => .isFalse (by simp)
  | .ok _, .error _ => .isFalse (by simp)

/-- Outcome of `procesar`: its dataset I/O events in order, the dispatched
batches grouped by attempt, and the returned table or raised error. -/
structure ProcOut where
  events : List Ev
  batches : List (List (List SourceRow))
  output : Except RunErr (List PersistedRow)
deriving DecidableEq, Repr

/-- `procesar` (lines 107-205) on the two loaded tables: raise unless
`GEMINI_API_KEY` is set (before any read); read both tables; compute the
pending set; with nothing to do, rewrite the persisted table sorted by id;
otherwise run the retry loop, raise `RuntimeError` when it produced no
corrections at all, and otherwise write the merged table. -/
def procesarRun (hasKey : Bool) (oracle : Nat → List SourceRow → List Correction)
    (dfIn : List SourceRow) (dfOut : List PersistedRow) : ProcOut :=
  if ¬ hasKey then ⟨[], [], .error .missingApiKey⟩
  else
    let todo := dfTodo dfIn dfOut
    if todo.isEmpty then
      ⟨[.readInput, .readPersisted, .writePersisted], [],
        .ok (List.insertionSort leById dfOut)⟩
    else
      let L := runLoop oracle 1 MAX_ATTEMPTS [] todo
      if L.results.isEmpty then
        ⟨[.readInput, .readPersisted] ++ L.batches.flatten.map Ev.oracleCall,
          L.batches, .error .noCorrections⟩
      else
        ⟨[.readInput, .readPersisted] ++ L.batches.flatten.map Ev.oracleCall
            ++ [.writePersisted],
          L.batches,
          .ok (if dfOut.isEmpty then mergeFromScratch dfIn L.results
               else merge dfIn dfOut L.results)⟩

/-- `main` (main.py lines 11-19): fail if the input file is missing, run
`preparar` (which reads the source and persisted tables and writes the
reconciled table), then run `procesar` on the source table and the table
`preparar` just wrote.  `inputExists`/`hasKey` model the input file's
existence and the `GEMINI_API_KEY` environment variable; the raw tables are
deduplicated by id on load. -/
def mainRun (inputExists hasKey : Bool)
    (oracle : Nat → List SourceRow → List Correction)
    (rawIn : List SourceRow) (rawOut : List PersistedRow) :
    List Ev × Except RunErr (List PersistedRow) :=
  if ¬ inputExists then ([], .error .missingInputFile)
  else
    let dfIn := uniqueKeepLast (fun s => s.id) rawIn
    let prep := preparar dfIn (uniqueKeepLast (fun r => r.id) rawOut)
    let proc := procesarRun hasKey oracle dfIn (uniqueKeepLast (fun r => r.id) prep)
    ([.readInput, .readPersisted, .writePersisted] ++ proc.events, proc.output)

/-! ### Helper lemmas -/

theorem uniqueKeepLast_eq_self {key : α → Int} {l : List α}
    (h : (l.map key).Nodup) : uniqueKeepLast key l = l := by
  induction l with
  | nil => rfl
  | cons x xs ih =>
    rw [List.map_cons, List.nodup_cons] at h
    rw [uniqueKeepLast, if_neg h.1, ih h.2]

theorem lookupSource_eq_of_mem {dfIn : List SourceRow}
    (h : (dfIn.map SourceRow.id).Nodup) {s : SourceRow} (hs : s ∈ dfIn) :
    lookupSource dfIn s.id = some s := by
  induction dfIn with
  | nil => cases hs
  | cons t rest ih =>
    rw [List.map_cons, List.nodup_cons] at h
    rcases List.mem_cons.mp hs with rfl | hmem
    · simp [lookupSource, List.find?_cons]
    · have hne : ¬ t.id = s.id := fun he => h.1 (he ▸ List.mem_map_of_mem SourceRow.id hmem)
      simpa [lookupSource, List.find?_cons, hne] using ih h.2 hmem

theorem lookupSource_some {dfIn : List SourceRow} {i : Int} {s : SourceRow}
    (h : lookupSource dfIn i = some s) : s ∈ dfIn ∧ s.id = i :=
  ⟨List.mem_of_find?_eq_some h, by simpa using List.find?_some h⟩

theorem lookupSource_eq_none {dfIn : List SourceRow} {i : Int}
    (h : ¬ i ∈ dfIn.map SourceRow.id) : lookupSource dfIn i = none := by
  rw [lookupSource, List.find?_eq_none]
  intro s hs hi
  exact h (by simpa using ⟨s, hs, by simpa using hi⟩)

theorem lookupSource_exists_of_mem {dfIn : List SourceRow} {i : Int}
    (h : i ∈ dfIn.map SourceRow.id) :
    ∃ s, lookupSource dfIn i = some s ∧ s ∈ dfIn ∧ s.id = i := by
  rcases List.mem_map.mp h with ⟨s, hs, hid⟩
  induction dfIn with
  | nil => cases hs
  | cons t rest ih =>
    by_cases ht : t.id = i
    · exact ⟨t, by simp [lookupSource, List.find?_cons, ht], List.mem_cons_self t rest, ht⟩
    · rcases List.mem_cons.mp hs with rfl | hmem
      · exact absurd hid ht
      · rcases ih (by simp [List.mem_map]; exact ⟨s, hmem, hid⟩) hmem with ⟨u, hu, hurest, huid⟩
        exact ⟨u, by simpa [lookupSource, List.find?_cons, ht] using hu,
          List.mem_cons_of_mem t hurest, huid⟩

theorem chunkedAux_flatten (n : Nat) :
    ∀ (fuel : Nat) (l : List α), l.length ≤ fuel → (chunkedAux n fuel l).flatten = l := by
  intro fuel
  induction fuel with
  | zero =>
    intro l hl
    have : l = [] := List.length_eq_zero.mp (Nat.le_zero.mp hl)
    rw [this]
    rfl
  | succ fuel ih =>
    intro l hl
    cases l with
    | nil => rfl
    | cons x xs =>
      rw [chunkedAux, List.flatten_cons, ih (xs.drop (n - 1)) ?hlen,
        List.cons_append, List.take_append_drop]
      case hlen =>
        rw [List.length_drop]
        rw [List.length_cons] at hl
        omega

theorem chunked_flatten (n : Nat) (l : List α) : (chunked n l).flatten = l :=
  chunkedAux_flatten n l.length l le_rfl

theorem chunked_sublist_of_mem {n : Nat} {l : List α} {b : List α}
    (h : b ∈ chunked n l) : ∀ x ∈ b, x ∈ l := by
  intro x hx
  have : x ∈ (chunked n l).flatten := List.mem_flatten.mpr ⟨b, h, hx⟩
  rwa [chunked_flatten] at this

/-- The number of dispatched batches that contain the id `i`. -/
def countIn (i : Int) (bs : List (List SourceRow)) : Nat :=
  (bs.filter (fun b => b.any (fun x => x.id = i))).length

theorem countIn_eq_zero {i : Int} {bs : List (List SourceRow)}
    (h : ∀ b ∈ bs, ∀ x ∈ b, x.id ≠ i) : countIn i bs = 0 := by
  rw [countIn, List.length_eq_zero, List.filter_eq_nil_iff]
  intro b hb
  rw [Bool.not_eq_true, List.any_eq_false]
  intro x hx
  simpa using h b hb x hx

theorem countIn_le_one {i : Int} {bs : List (List SourceRow)}
    (h : ((bs.flatten).map SourceRow.id).Nodup) : countIn i bs ≤ 1 := by
  induction bs with
  | nil => simp [countIn]
  | cons b rest ih =>
    rw [List.flatten_cons, List.map_append, List.nodup_append] at h
    by_cases hb : b.any (fun x => x.id = i)
    · rcases List.any_eq_true.mp hb with ⟨x, hx, hxi⟩
      have hzero : countIn i rest = 0 := by
        apply countIn_eq_zero
        intro b' hb' y hy hyi
        have hyin : i ∈ (rest.flatten).map SourceRow.id := by
          rw [List.mem_map]
          exact ⟨y, List.mem_flatten.mpr ⟨b', hb', hy⟩, hyi⟩
        have hxin : i ∈ b.map SourceRow.id := by
          rw [List.mem_map]
          exact ⟨x, hx, by simpa using hxi⟩
        exact h.2.2 hxin hyin
      have hcons : countIn i (b :: rest) = countIn i rest + 1 := by
        rw [countIn, countIn, List.filter_cons, if_pos hb]
        simp
      rw [hcons, hzero]
    · have hcons : countIn i (b :: rest) = countIn i rest := by
        rw [countIn, countIn, List.filter_cons, if_neg hb]
      rw [hcons]
      exact ih h.2.1

theorem dictKeys_append (m m' : List (Int × String)) :
    dictKeys (m ++ m') = dictKeys m ++ dictKeys m' := by
  simp [dictKeys]

theorem mem_dictKeys_dictInsert {m : List (Int × String)} {k k' : Int} {v : String} :
    k' ∈ dictKeys (dictInsert m k v) ↔ k' ∈ dictKeys m ∨ k' = k := by
  rw [dictInsert]
  split
  · next hany =>
    have hk : k ∈ dictKeys m := by
      rcases List.any_eq_true.mp hany with ⟨p, hp, hpk⟩
      rw [dictKeys, List.mem_map]
      exact ⟨p, hp, by simpa using hpk⟩
    have hkeys : dictKeys (m.map (fun p => if p.1 = k then (k, v) else p)) = dictKeys m := by
      rw [dictKeys, List.map_map]
      apply List.map_congr_left
      intro p _
      by_cases hp : p.1 = k <;> simp [hp]
    rw [hkeys]
    constructor
    · exact Or.inl
    · rintro (h | rfl)
      · exact h
      · exact hk
  · rw [dictKeys_append]
    simp [dictKeys]

theorem dictKeys_subset_dictInsert {m : List (Int × String)} {k k' : Int} {v : String}
    (h : k' ∈ dictKeys m) : k' ∈ dictKeys (dictInsert m k v) :=
  mem_dictKeys_dictInsert.mpr (Or.inl h)

theorem dictFind_dictInsert_ne {m : List (Int × String)} {k k' : Int} {v : String}
    (h : ¬ k' = k) : dictFind (dictInsert m k v) k' = dictFind m k' := by
  have hkk' : ¬ (k = k') := fun he => h he.symm
  simp only [dictFind, dictInsert]
  split
  · have hfun : ((fun p : Int × String => decide (p.1 = k')) ∘
        (fun p => if p.1 = k then (k, v) else p))
        = fun p : Int × String => decide (p.1 = k') := by
      funext p
      by_cases hp : p.1 = k
      · simp [hp, hkk']
      · simp [hp]
    rw [List.find?_map, hfun]
    rcases hfq : List.find? (fun p : Int × String => decide (p.1 = k')) m with _ | q
    · simp
    · have hq : q.1 = k' := by simpa using List.find?_some hfq
      have hfix : (if q.1 = k then ((k, v) : Int × String) else q) = q := by
        rw [if_neg]
        rw [hq]
        exact h
      simp [hfix]
  · rw [List.find?_append]
    have h2 : List.find? (fun p : Int × String => decide (p.1 = k')) [(k, v)] = none := by
      simp [hkk']
    rw [h2]
    cases List.find? (fun p : Int × String => decide (p.1 = k')) m <;> simp

theorem dictFind_eq_none {m : List (Int × String)} {k : Int}
    (h : ¬ k ∈ dictKeys m) : dictFind m k = none := by
  rw [dictFind]
  have hfq : List.find? (fun p : Int × String => decide (p.1 = k)) m = none := by
    rw [List.find?_eq_none]
    intro p hp hpk
    exact h (by rw [dictKeys, List.mem_map]; exact ⟨p, hp, by simpa using hpk⟩)
  rw [hfq]
  rfl

theorem countIn_append (i : Int) (bs cs : List (List SourceRow)) :
    countIn i (bs ++ cs) = countIn i bs + countIn i cs := by
  simp [countIn, List.filter_append]

/-! ### Invariants of the batch-recording loop -/

theorem recordCorr_keys_mono {ids : List Int} {corr : List Correction}
    {results : List (Int × String)} {got : List Int} {k : Int}
    (h : k ∈ dictKeys results) : k ∈ dictKeys (recordCorr ids corr results got).1 := by
  induction corr generalizing results got with
  | nil => exact h
  | cons c rest ih =>
    by_cases hc : c.id ∈ ids
    · rw [recordCorr, if_pos hc]
      exact ih (dictKeys_subset_dictInsert h)
    · rw [recordCorr, if_neg hc]
      exact ih h

theorem recordCorr_got_mono {ids : List Int} {corr : List Correction}
    {results : List (Int × String)} {got : List Int} {k : Int}
    (h : k ∈ got) : k ∈ (recordCorr ids corr results got).2 := by
  induction corr generalizing results got with
  | nil => exact h
  | cons c rest ih =>
    by_cases hc : c.id ∈ ids
    · rw [recordCorr, if_pos hc]
      exact ih (List.mem_cons_of_mem _ h)
    · rw [recordCorr, if_neg hc]
      exact ih h

theorem recordCorr_keys_sub {ids : List Int} {corr : List Correction}
    {results : List (Int × String)} {got : List Int} {k : Int}
    (h : k ∈ dictKeys (recordCorr ids corr results got).1) :
    k ∈ dictKeys results ∨ k ∈ (recordCorr ids corr results got).2 := by
  induction corr generalizing results got with
  | nil => exact Or.inl h
  | cons c rest ih =>
    by_cases hc : c.id ∈ ids
    · rw [recordCorr, if_pos hc] at h ⊢
      rcases ih h with hk | hk
      · rcases mem_dictKeys_dictInsert.mp hk with hk' | rfl
        · exact Or.inl hk'
        · exact Or.inr (recordCorr_got_mono (List.mem_cons_self _ _))
      · exact Or.inr hk
    · rw [recordCorr, if_neg hc] at h ⊢
      exact ih h

theorem recordCorr_got_sub {ids : List Int} {corr : List Correction}
    {results : List (Int × String)} {got : List Int} {k : Int}
    (h : k ∈ (recordCorr ids corr results got).2) : k ∈ got ∨ k ∈ ids := by
  induction corr generalizing results got with
  | nil => exact Or.inl h
  | cons c rest ih =>
    by_cases hc : c.id ∈ ids
    · rw [recordCorr, if_pos hc] at h
      rcases ih h with hg | hi
      · rcases List.mem_cons.mp hg with rfl | hg'
        · exact Or.inr hc
        · exact Or.inl hg'
      · exact Or.inr hi
    · rw [recordCorr, if_neg hc] at h
      exact ih h

theorem recordCorr_find_not_mem {ids : List Int} {corr : List Correction}
    {results : List (Int × String)} {got : List Int} {k : Int}
    (h : ¬ k ∈ ids) :
    dictFind (recordCorr ids corr results got).1 k = dictFind results k := by
  induction corr generalizing results got with
  | nil => rfl
  | cons c rest ih =>
    by_cases hc : c.id ∈ ids
    · rw [recordCorr, if_pos hc, ih]
      exact dictFind_dictInsert_ne (fun he => h (he ▸ hc))
    · rw [recordCorr, if_neg hc, ih]

/-! ### Invariants of one attempt (`runBatches`) -/

theorem runBatches_keys_mono {f : List SourceRow → List Correction}
    {results : List (Int × String)} {bs : List (List SourceRow)} {k : Int}
    (h : k ∈ dictKeys results) : k ∈ dictKeys (runBatches f results bs).1 := by
  induction bs generalizing results with
  | nil => exact h
  | cons b rest ih => exact ih (recordCorr_keys_mono h)

theorem runBatches_keys_sub {f : List SourceRow → List Correction}
    {results : List (Int × String)} {bs : List (List SourceRow)} {k : Int}
    (h : k ∈ dictKeys (runBatches f results bs).1) :
    k ∈ dictKeys results ∨ k ∈ (bs.flatten).map (fun x : SourceRow => x.id) := by
  induction bs generalizing results with
  | nil => exact Or.inl h
  | cons b rest ih =>
    rcases ih h with hk | hk
    · rcases recordCorr_keys_sub hk with hk' | hk'
      · exact Or.inl hk'
      · right
        rcases recordCorr_got_sub hk' with hg | hg
        · cases hg
        · rw [List.flatten_cons, List.map_append]
          exact List.mem_append_left _ hg
    · right
      rw [List.flatten_cons, List.map_append]
      exact List.mem_append_right _ hk

theorem runBatches_find_not_mem {f : List SourceRow → List Correction}
    {results : List (Int × String)} {bs : List (List SourceRow)} {k : Int}
    (h : ¬ k ∈ (bs.flatten).map (fun x : SourceRow => x.id)) :
    dictFind (runBatches f results bs).1 k = dictFind results k := by
  induction bs generalizing results with
  | nil => rfl
  | cons b rest ih =>
    rw [List.flatten_cons, List.map_append] at h
    have hb : ¬ k ∈ b.map (fun x : SourceRow => x.id) :=
      fun hm => h (List.mem_append_left _ hm)
    have hrest : ¬ k ∈ (rest.flatten).map (fun x : SourceRow => x.id) :=
      fun hm => h (List.mem_append_right _ hm)
    show dictFind (runBatches f (procBatch (f b) b results).1 rest).1 k = dictFind results k
    rw [ih hrest]
    exact recordCorr_find_not_mem hb

theorem runBatches_pending_sublist {f : List SourceRow → List Correction}
    {results : List (Int × String)} {bs : List (List SourceRow)} :
    ((runBatches f results bs).2).Sublist bs.flatten := by
  induction bs generalizing results with
  | nil => simp [runBatches]
  | cons b rest ih =>
    rw [List.flatten_cons]
    exact List.Sublist.append (List.filter_sublist b) ih

theorem runBatches_disjoint {f : List SourceRow → List Correction}
    {results : List (Int × String)} {bs : List (List SourceRow)}
    (hN : ((bs.flatten).map (fun x : SourceRow => x.id)).Nodup)
    (hD : ∀ j ∈ dictKeys results, ¬ j ∈ (bs.flatten).map (fun x : SourceRow => x.id)) :
    ∀ k ∈ dictKeys (runBatches f results bs).1,
      ¬ k ∈ ((runBatches f results bs).2).map (fun x : SourceRow => x.id) := by
  induction bs generalizing results with
  | nil => intro k _ hm; cases hm
  | cons b rest ih =>
    rw [List.flatten_cons, List.map_append, List.nodup_append] at hN
    have hDb : ∀ j ∈ dictKeys results, ¬ j ∈ b.map (fun x : SourceRow => x.id) := by
      intro j hj hm
      exact hD j hj (by rw [List.flatten_cons, List.map_append]; exact List.mem_append_left _ hm)
    have hDrest : ∀ j ∈ dictKeys results, ¬ j ∈ (rest.flatten).map (fun x : SourceRow => x.id) := by
      intro j hj hm
      exact hD j hj (by rw [List.flatten_cons, List.map_append]; exact List.mem_append_right _ hm)
    have hD' : ∀ j ∈ dictKeys (procBatch (f b) b results).1,
        ¬ j ∈ (rest.flatten).map (fun x : SourceRow => x.id) := by
      intro j hj hm
      rcases recordCorr_keys_sub hj with hj' | hj'
      · exact hDrest j hj' hm
      · rcases recordCorr_got_sub hj' with hg | hg
        · cases hg
        · exact hN.2.2 hg hm
    intro k hk hm
    have hk2 : k ∈ dictKeys (runBatches f (procBatch (f b) b results).1 rest).1 := hk
    have hm2 : k ∈ ((procBatch (f b) b results).2.2
        ++ (runBatches f (procBatch (f b) b results).1 rest).2).map
        (fun x : SourceRow => x.id) := hm
    rw [List.map_append] at hm2
    rcases List.mem_append.mp hm2 with hmi | hmi
    · rcases List.mem_map.mp hmi with ⟨item, hitem, hitemid⟩
      rcases List.mem_filter.mp hitem with ⟨hitem_b, hitem_got⟩
      have hngot : ¬ item.id ∈ (recordCorr (b.map (fun x => x.id)) (f b) results []).2 := by
        simpa using hitem_got
      have hk' : k ∈ dictKeys (procBatch (f b) b results).1 ∨
          k ∈ (rest.flatten).map (fun x : SourceRow => x.id) := runBatches_keys_sub hk2
      have hidb : k ∈ b.map (fun x : SourceRow => x.id) :=
        List.mem_map.mpr ⟨item, hitem_b, hitemid⟩
      rcases hk' with hk' | hk'
      · rcases recordCorr_keys_sub hk' with hk'' | hk''
        · exact hDb k hk'' hidb
        · exact hngot (hitemid ▸ hk'')
      · exact hN.2.2 hidb hk'
    · exact ih hN.2.1 hD' k hk2 hmi

/-! ### Invariants of the retry loop (`runLoop`) -/

theorem runLoop_batches_mem {oracle : Nat → List SourceRow → List Correction}
    {a fuel : Nat} {results : List (Int × String)} {pending : List SourceRow}
    {b : List SourceRow} {x : SourceRow}
    (hb : b ∈ (runLoop oracle a fuel results pending).batches.flatten)
    (hx : x ∈ b) : x ∈ pending := by
  induction fuel generalizing a results pending with
  | zero => cases hb
  | succ fuel ih =>
    rw [runLoop] at hb
    split at hb
    · cases hb
    · rw [List.flatten_cons] at hb
      rcases List.mem_append.mp hb with hbs | hbs
      · have : x ∈ (chunked BATCH_SIZE pending).flatten := List.mem_flatten.mpr ⟨b, hbs, hx⟩
        rwa [chunked_flatten] at this
      · have hxp : x ∈ (runBatches (oracle a) results (chunked BATCH_SIZE pending)).2 :=
          ih hbs
        have := runBatches_pending_sublist.subset hxp
        rwa [chunked_flatten] at this

theorem runLoop_keys_sub {oracle : Nat → List SourceRow → List Correction}
    {a fuel : Nat} {results : List (Int × String)} {pending : List SourceRow} {k : Int}
    (h : k ∈ dictKeys (runLoop oracle a fuel results pending).results) :
    k ∈ dictKeys results ∨ k ∈ pending.map (fun x : SourceRow => x.id) := by
  induction fuel generalizing a results pending with
  | zero => exact Or.inl h
  | succ fuel ih =>
    rw [runLoop] at h
    split at h
    · exact Or.inl h
    · rcases ih h with hk | hk
      · rcases runBatches_keys_sub hk with hk' | hk'
        · exact Or.inl hk'
        · right
          rwa [chunked_flatten] at hk'
      · right
        have hsub : ((runBatches (oracle a) results (chunked BATCH_SIZE pending)).2.map
            (fun x : SourceRow => x.id)).Sublist
            ((chunked BATCH_SIZE pending).flatten.map (fun x : SourceRow => x.id)) :=
          List.Sublist.map _ runBatches_pending_sublist
        have := hsub.subset hk
        rwa [chunked_flatten] at this

theorem runLoop_find {oracle : Nat → List SourceRow → List Correction}
    {a fuel : Nat} {results : List (Int × String)} {pending : List SourceRow} {k : Int}
    (hN : (pending.map (fun x : SourceRow => x.id)).Nodup)
    (hD : ∀ j ∈ dictKeys results, ¬ j ∈ pending.map (fun x : SourceRow => x.id))
    (hk : k ∈ dictKeys results) :
    dictFind (runLoop oracle a fuel results pending).results k = dictFind results k := by
  induction fuel generalizing a results pending with
  | zero => rfl
  | succ fuel ih =>
    rw [runLoop]
    split
    · rfl
    · have hNfl : (((chunked BATCH_SIZE pending).flatten).map
          (fun x : SourceRow => x.id)).Nodup := by
        rwa [chunked_flatten]
      have hDfl : ∀ j ∈ dictKeys results,
          ¬ j ∈ ((chunked BATCH_SIZE pending).flatten).map (fun x : SourceRow => x.id) := by
        intro j hj
        rw [chunked_flatten]
        exact hD j hj
      have hN' : ((runBatches (oracle a) results (chunked BATCH_SIZE pending)).2.map
          (fun x : SourceRow => x.id)).Nodup :=
        (List.Sublist.map _ runBatches_pending_sublist).nodup hNfl
      have hD' := @runBatches_disjoint (oracle a) results (chunked BATCH_SIZE pending)
        hNfl hDfl
      have hk' : k ∈ dictKeys (runBatches (oracle a) results (chunked BATCH_SIZE pending)).1 :=
        runBatches_keys_mono hk
      show dictFind (runLoop oracle (a + 1) fuel
        (runBatches (oracle a) results (chunked BATCH_SIZE pending)).1
        (runBatches (oracle a) results (chunked BATCH_SIZE pending)).2).results k
        = dictFind results k
      rw [ih hN' hD' hk']
      exact runBatches_find_not_mem (hDfl k hk)

theorem runLoop_nodup_remaining {oracle : Nat → List SourceRow → List Correction}
    {a fuel : Nat} {results : List (Int × String)} {pending : List SourceRow}
    (hN : (pending.map (fun x : SourceRow => x.id)).Nodup) :
    (((runLoop oracle a fuel results pending).remaining).map
      (fun x : SourceRow => x.id)).Nodup := by
  induction fuel generalizing a results pending with
  | zero => exact hN
  | succ fuel ih =>
    rw [runLoop]
    split
    · exact hN
    · have hNfl : (((chunked BATCH_SIZE pending).flatten).map
          (fun x : SourceRow => x.id)).Nodup := by
        rwa [chunked_flatten]
      exact ih ((List.Sublist.map _ runBatches_pending_sublist).nodup hNfl)

theorem runLoop_count {oracle : Nat → List SourceRow → List Correction}
    {a fuel : Nat} {results : List (Int × String)} {pending : List SourceRow} {i : Int}
    (hN : (pending.map (fun x : SourceRow => x.id)).Nodup) :
    countIn i (runLoop oracle a fuel results pending).batches.flatten ≤ fuel := by
  induction fuel generalizing a results pending with
  | zero => simp [runLoop, countIn]
  | succ fuel ih =>
    rw [runLoop]
    split
    · simp [countIn]
    · have hNfl : (((chunked BATCH_SIZE pending).flatten).map
          (fun x : SourceRow => x.id)).Nodup := by
        rwa [chunked_flatten]
      have h1 : countIn i (chunked BATCH_SIZE pending) ≤ 1 := countIn_le_one hNfl
      have h2 : countIn i (runLoop oracle (a + 1) fuel
          (runBatches (oracle a) results (chunked BATCH_SIZE pending)).1
          (runBatches (oracle a) results (chunked BATCH_SIZE pending)).2).batches.flatten
          ≤ fuel :=
        ih ((List.Sublist.map _ runBatches_pending_sublist).nodup hNfl)
      show countIn i ((chunked BATCH_SIZE pending) :: _).flatten ≤ fuel + 1
      rw [List.flatten_cons, countIn_append]
      omega

theorem runLoop_nil (oracle : Nat → List SourceRow → List Correction)
    (a fuel : Nat) (results : List (Int × String)) :
    runLoop oracle a fuel results [] = ⟨results, [], []⟩ := by
  cases fuel with
  | zero => rfl
  | succ f => rw [runLoop]; rfl

theorem runLoop_add (oracle : Nat → List SourceRow → List Correction)
    (m n a : Nat) (results : List (Int × String)) (pending : List SourceRow) :
    runLoop oracle a (m + n) results pending =
      ⟨(runLoop oracle (a + m) n (runLoop oracle a m results pending).results
          (runLoop oracle a m results pending).remaining).results,
        (runLoop oracle (a + m) n (runLoop oracle a m results pending).results
          (runLoop oracle a m results pending).remaining).remaining,
        (runLoop oracle a m results pending).batches ++
          (runLoop oracle (a + m) n (runLoop oracle a m results pending).results
            (runLoop oracle a m results pending).remaining).batches⟩ := by
  induction m generalizing a results pending with
  | zero =>
    rw [Nat.zero_add, Nat.add_zero]
    rfl
  | succ m ih =>
    by_cases hp : pending.isEmpty
    · have he : pending = [] := List.isEmpty_iff.mp hp
      subst he
      simp [runLoop_nil]
    · have hstep : m + 1 + n = m + n + 1 := by omega
      have hL : runLoop oracle a (m + n + 1) results pending =
          ⟨(runLoop oracle (a + 1) (m + n)
              (runBatches (oracle a) results (chunked BATCH_SIZE pending)).1
              (runBatches (oracle a) results (chunked BATCH_SIZE pending)).2).results,
            (runLoop oracle (a + 1) (m + n)
              (runBatches (oracle a) results (chunked BATCH_SIZE pending)).1
              (runBatches (oracle a) results (chunked BATCH_SIZE pending)).2).remaining,
            chunked BATCH_SIZE pending ::
              (runLoop oracle (a + 1) (m + n)
                (runBatches (oracle a) results (chunked BATCH_SIZE pending)).1
                (runBatches (oracle a) results (chunked BATCH_SIZE pending)).2).batches⟩ := by
        rw [runLoop, if_neg hp]
      have hM : runLoop oracle a (m + 1) results pending =
          ⟨(runLoop oracle (a + 1) m
              (runBatches (oracle a) results (chunked BATCH_SIZE pending)).1
              (runBatches (oracle a) results (chunked BATCH_SIZE pending)).2).results,
            (runLoop oracle (a + 1) m
              (runBatches (oracle a) results (chunked BATCH_SIZE pending)).1
              (runBatches (oracle a) results (chunked BATCH_SIZE pending)).2).remaining,
            chunked BATCH_SIZE pending ::
              (runLoop oracle (a + 1) m
                (runBatches (oracle a) results (chunked BATCH_SIZE pending)).1
                (runBatches (oracle a) results (chunked BATCH_SIZE pending)).2).batches⟩ := by
        rw [runLoop, if_neg hp]
      have harith : a + 1 + m = a + (m + 1) := by omega
      rw [hstep, hL, ih (a + 1), hM, harith]
      simp

/-! ### Invariants of the reconciler (`preparar`) -/

theorem prepararUpdate_id (dfIn : List SourceRow) (r : PersistedRow) :
    (prepararUpdate dfIn r).id = r.id := by
  cases h : lookupSource dfIn r.id with
  | none => simp [prepararUpdate, h]
  | some s =>
    simp only [prepararUpdate, h]
    split <;> rfl

theorem prepararStep2_ids (dfIn : List SourceRow) (dfOut : List PersistedRow) :
    (prepararStep2 dfIn dfOut).map (fun r : PersistedRow => r.id)
      = (dfOut.filter (fun r => dfIn.any (fun s => s.id = r.id))).map
          (fun r : PersistedRow => r.id) := by
  rw [prepararStep2, List.map_map]
  exact List.map_congr_left (fun r _ => prepararUpdate_id dfIn r)

theorem prepararStep2_mem_ids {dfIn : List SourceRow} {dfOut : List PersistedRow} {i : Int} :
    i ∈ (prepararStep2 dfIn dfOut).map (fun r : PersistedRow => r.id)
      ↔ i ∈ dfOut.map (fun r : PersistedRow => r.id)
        ∧ i ∈ dfIn.map (fun s : SourceRow => s.id) := by
  rw [prepararStep2_ids]
  simp only [List.mem_map, List.mem_filter, List.any_eq_true, decide_eq_true_eq]
  constructor
  · rintro ⟨r, ⟨hr, s, hs, hsid⟩, rfl⟩
    exact ⟨⟨r, hr, rfl⟩, ⟨s, hs, hsid⟩⟩
  · rintro ⟨⟨r, hr, rfl⟩, s, hs, hsid⟩
    exact ⟨r, ⟨hr, s, hs, hsid⟩, rfl⟩

theorem prepararStep2_ids_nodup {dfIn : List SourceRow} {dfOut : List PersistedRow}
    (hOut : (dfOut.map (fun r : PersistedRow => r.id)).Nodup) :
    ((prepararStep2 dfIn dfOut).map (fun r : PersistedRow => r.id)).Nodup := by
  rw [prepararStep2_ids]
  exact (List.Sublist.map _ (List.filter_sublist dfOut)).nodup hOut

theorem prepararNuevos_ids (dfIn : List SourceRow) (dfOut : List PersistedRow) :
    (prepararNuevos dfIn dfOut).map (fun r : PersistedRow => r.id)
      = (dfIn.filter (fun s => ¬ (prepararStep2 dfIn dfOut).any (fun r => r.id = s.id))).map
          (fun s : SourceRow => s.id) := by
  rw [prepararNuevos, List.map_map]
  exact List.map_congr_left (fun s _ => rfl)

theorem prepararNuevos_mem_ids {dfIn : List SourceRow} {dfOut : List PersistedRow} {i : Int} :
    i ∈ (prepararNuevos dfIn dfOut).map (fun r : PersistedRow => r.id)
      ↔ i ∈ dfIn.map (fun s : SourceRow => s.id)
        ∧ ¬ i ∈ (prepararStep2 dfIn dfOut).map (fun r : PersistedRow => r.id) := by
  rw [prepararNuevos_ids]
  constructor
  · intro h
    rcases List.mem_map.mp h with ⟨s, hsf, rfl⟩
    rcases List.mem_filter.mp hsf with ⟨hs, hnp⟩
    have hnp' : ¬ (prepararStep2 dfIn dfOut).any (fun r => r.id = s.id) = true := by
      simpa using hnp
    refine ⟨List.mem_map.mpr ⟨s, hs, rfl⟩, ?hni⟩
    intro hmem
    rcases List.mem_map.mp hmem with ⟨r, hr, hrid⟩
    exact hnp' (List.any_eq_true.mpr ⟨r, hr, by simpa using hrid⟩)
  · rintro ⟨h1, h2⟩
    rcases List.mem_map.mp h1 with ⟨s, hs, rfl⟩
    apply List.mem_map.mpr
    refine ⟨s, List.mem_filter.mpr ⟨hs, ?hok⟩, rfl⟩
    have hnp : ¬ (prepararStep2 dfIn dfOut).any (fun r => r.id = s.id) = true := by
      intro hany
      rcases List.any_eq_true.mp hany with ⟨r, hr, hrid⟩
      exact h2 (List.mem_map.mpr ⟨r, hr, by simpa using hrid⟩)
    simpa using hnp

theorem preparar_concat_nodup {dfIn : List SourceRow} {dfOut : List PersistedRow}
    (hIn : (dfIn.map (fun s : SourceRow => s.id)).Nodup)
    (hOut : (dfOut.map (fun r : PersistedRow => r.id)).Nodup) :
    (((prepararStep2 dfIn dfOut ++ prepararNuevos dfIn dfOut)).map
      (fun r : PersistedRow => r.id)).Nodup := by
  rw [List.map_append, List.nodup_append]
  refine ⟨prepararStep2_ids_nodup hOut, ?hnN, ?hdisj⟩
  · rw [prepararNuevos_ids]
    exact (List.Sublist.map _ (List.filter_sublist dfIn)).nodup hIn
  · intro i hi hi'
    exact (prepararNuevos_mem_ids.mp hi').2 hi

theorem preparar_mem_iff {dfIn : List SourceRow} {dfOut : List PersistedRow}
    (hIn : (dfIn.map (fun s : SourceRow => s.id)).Nodup)
    (hOut : (dfOut.map (fun r : PersistedRow => r.id)).Nodup) {r : PersistedRow} :
    r ∈ preparar dfIn dfOut
      ↔ r ∈ prepararStep2 dfIn dfOut ++ prepararNuevos dfIn dfOut := by
  rw [preparar, uniqueKeepLast_eq_self (preparar_concat_nodup hIn hOut)]
  exact (List.perm_insertionSort _ _).mem_iff

theorem preparar_ids_perm {dfIn : List SourceRow} {dfOut : List PersistedRow}
    (hIn : (dfIn.map (fun s : SourceRow => s.id)).Nodup)
    (hOut : (dfOut.map (fun r : PersistedRow => r.id)).Nodup) :
    ((preparar dfIn dfOut).map (fun r : PersistedRow => r.id)).Perm
      ((prepararStep2 dfIn dfOut ++ prepararNuevos dfIn dfOut).map
        (fun r : PersistedRow => r.id)) := by
  rw [preparar, uniqueKeepLast_eq_self (preparar_concat_nodup hIn hOut)]
  exact (List.perm_insertionSort _ _).map _

theorem preparar_ids_nodup {dfIn : List SourceRow} {dfOut : List PersistedRow}
    (hIn : (dfIn.map (fun s : SourceRow => s.id)).Nodup)
    (hOut : (dfOut.map (fun r : PersistedRow => r.id)).Nodup) :
    ((preparar dfIn dfOut).map (fun r : PersistedRow => r.id)).Nodup :=
  ((preparar_ids_perm hIn hOut).nodup_iff).mpr (preparar_concat_nodup hIn hOut)

theorem preparar_mem_ids {dfIn : List SourceRow} {dfOut : List PersistedRow}
    (hIn : (dfIn.map (fun s : SourceRow => s.id)).Nodup)
    (hOut : (dfOut.map (fun r : PersistedRow => r.id)).Nodup) (i : Int) :
    i ∈ (preparar dfIn dfOut).map (fun r : PersistedRow => r.id)
      ↔ i ∈ dfIn.map (fun s : SourceRow => s.id) := by
  rw [(preparar_ids_perm hIn hOut).mem_iff, List.map_append, List.mem_append]
  constructor
  · rintro (h | h)
    · exact (prepararStep2_mem_ids.mp h).2
    · exact (prepararNuevos_mem_ids.mp h).1
  · intro h
    by_cases hs : i ∈ (prepararStep2 dfIn dfOut).map (fun r : PersistedRow => r.id)
    · exact Or.inl hs
    · exact Or.inr (prepararNuevos_mem_ids.mpr ⟨h, hs⟩)

theorem preparar_sorted (dfIn : List SourceRow) (dfOut : List PersistedRow) :
    List.Sorted leById (preparar dfIn dfOut) :=
  List.sorted_insertionSort leById _

theorem preparar_orig {dfIn : List SourceRow} {dfOut : List PersistedRow}
    (hIn : (dfIn.map (fun s : SourceRow => s.id)).Nodup)
    (hOut : (dfOut.map (fun r : PersistedRow => r.id)).Nodup) {r : PersistedRow}
    (hr : r ∈ preparar dfIn dfOut) :
    ∃ s, lookupSource dfIn r.id = some s
      ∧ s.observaciones = r.observaciones_original := by
  rcases List.mem_append.mp ((preparar_mem_iff hIn hOut).mp hr) with hr2 | hrN
  · rcases List.mem_map.mp hr2 with ⟨r0, hr0, rfl⟩
    rcases List.mem_filter.mp hr0 with ⟨hr0Out, hr0any⟩
    have hr0id : r0.id ∈ dfIn.map (fun s : SourceRow => s.id) := by
      rcases List.any_eq_true.mp hr0any with ⟨s, hs, hsid⟩
      exact List.mem_map.mpr ⟨s, hs, by simpa using hsid⟩
    rcases lookupSource_exists_of_mem hr0id with ⟨s, hls, _, hsid⟩
    have hupd : prepararUpdate dfIn r0 =
        (if s.observaciones ≠ r0.observaciones_original then
          ({ id := r0.id,
             observaciones_original := s.observaciones,
             observaciones_final := none } : PersistedRow)
        else r0) := by
      simp only [prepararUpdate, hls]
    by_cases hch : s.observaciones ≠ r0.observaciones_original
    · rw [hupd, if_pos hch]
      exact ⟨s, hls, rfl⟩
    · rw [hupd, if_neg hch]
      exact ⟨s, hls, not_not.mp hch⟩
  · rcases List.mem_map.mp hrN with ⟨s, hsf, rfl⟩
    rcases List.mem_filter.mp hsf with ⟨hsIn, _⟩
    exact ⟨s, lookupSource_eq_of_mem hIn hsIn, rfl⟩

theorem preparar_fix {dfIn : List SourceRow} {P : List PersistedRow}
    (hN : (P.map (fun r : PersistedRow => r.id)).Nodup)
    (hsort : List.Sorted leById P)
    (hmem : ∀ r ∈ P, r.id ∈ dfIn.map (fun s : SourceRow => s.id))
    (horig : ∀ r ∈ P, ∀ s, lookupSource dfIn r.id = some s
      → s.observaciones = r.observaciones_original)
    (hcover : ∀ i ∈ dfIn.map (fun s : SourceRow => s.id),
      i ∈ P.map (fun r : PersistedRow => r.id)) :
    preparar dfIn P = P := by
  have hkept : P.filter (fun r => dfIn.any (fun s => s.id = r.id)) = P := by
    rw [List.filter_eq_self]
    intro r hr
    rcases List.mem_map.mp (hmem r hr) with ⟨s, hs, hsid⟩
    exact List.any_eq_true.mpr ⟨s, hs, by simpa using hsid⟩
  have hstep2 : prepararStep2 dfIn P = P := by
    rw [prepararStep2, hkept]
    have hupd : ∀ r ∈ P, prepararUpdate dfIn r = r := by
      intro r hr
      rcases lookupSource_exists_of_mem (hmem r hr) with ⟨u, hlu, _, _⟩
      have hform : prepararUpdate dfIn r =
          (if u.observaciones ≠ r.observaciones_original then
            ({ id := r.id,
               observaciones_original := u.observaciones,
               observaciones_final := none } : PersistedRow)
          else r) := by
        simp only [prepararUpdate, hlu]
      rw [hform, if_neg]
      intro hne
      exact hne (horig r hr u hlu)
    rw [List.map_congr_left hupd]
    simp
  have hnuevos : prepararNuevos dfIn P = [] := by
    rw [prepararNuevos, hstep2]
    have : dfIn.filter (fun s => ¬ P.any (fun r => r.id = s.id)) = [] := by
      rw [List.filter_eq_nil_iff]
      intro s hs
      have hsid : s.id ∈ P.map (fun r : PersistedRow => r.id) :=
        hcover s.id (List.mem_map.mpr ⟨s, hs, rfl⟩)
      rcases List.mem_map.mp hsid with ⟨r, hr, hrid⟩
      simp only [decide_not, Bool.not_eq_true', Bool.not_eq_false, List.any_eq_true,
        decide_eq_true_eq]
      exact ⟨r, hr, hrid⟩
    rw [this, List.map_nil]
  rw [preparar, hstep2, hnuevos, List.append_nil, uniqueKeepLast_eq_self hN]
  exact hsort.insertionSort_eq

theorem runLoop_disjoint {oracle : Nat → List SourceRow → List Correction}
    {a fuel : Nat} {results : List (Int × String)} {pending : List SourceRow}
    (hN : (pending.map (fun x : SourceRow => x.id)).Nodup)
    (hD : ∀ j ∈ dictKeys results, ¬ j ∈ pending.map (fun x : SourceRow => x.id)) :
    ∀ j ∈ dictKeys (runLoop oracle a fuel results pending).results,
      ¬ j ∈ ((runLoop oracle a fuel results pending).remaining).map
        (fun x : SourceRow => x.id) := by
  induction fuel generalizing a results pending with
  | zero => exact hD
  | succ fuel ih =>
    rw [runLoop]
    split
    · exact hD
    · have hNfl : (((chunked BATCH_SIZE pending).flatten).map
          (fun x : SourceRow => x.id)).Nodup := by
        rwa [chunked_flatten]
      have hDfl : ∀ j ∈ dictKeys results,
          ¬ j ∈ ((chunked BATCH_SIZE pending).flatten).map (fun x : SourceRow => x.id) := by
        intro j hj
        rw [chunked_flatten]
        exact hD j hj
      exact ih ((List.Sublist.map _ runBatches_pending_sublist).nodup hNfl)
        (@runBatches_disjoint (oracle a) results (chunked BATCH_SIZE pending) hNfl hDfl)

/-! ### Invariants of the merge -/

theorem mergeRow_id (dfIn : List SourceRow) (results : List (Int × String))
    (r : PersistedRow) : (mergeRow dfIn results r).id = r.id := rfl

theorem merge_eq_map {dfIn : List SourceRow} {dfOut : List PersistedRow}
    {results : List (Int × String)}
    (hOut : (dfOut.map (fun r : PersistedRow => r.id)).Nodup) :
    merge dfIn dfOut results
      = List.insertionSort leById (dfOut.map (mergeRow dfIn results)) := by
  rw [merge, uniqueKeepLast_eq_self]
  rw [List.map_map]
  have : ∀ r ∈ dfOut, ((fun r : PersistedRow => r.id) ∘ mergeRow dfIn results) r
      = (fun r : PersistedRow => r.id) r := fun r _ => mergeRow_id dfIn results r
  rw [List.map_congr_left this]
  exact hOut

theorem mergeRow_mem_merge {dfIn : List SourceRow} {dfOut : List PersistedRow}
    {results : List (Int × String)}
    (hOut : (dfOut.map (fun r : PersistedRow => r.id)).Nodup)
    {r : PersistedRow} (hr : r ∈ dfOut) :
    mergeRow dfIn results r ∈ merge dfIn dfOut results := by
  rw [merge_eq_map hOut]
  exact (List.perm_insertionSort _ _).mem_iff.mpr (List.mem_map_of_mem _ hr)

/-! ### Unfolding the branches of `procesar` -/

theorem procesarRun_nokey (oracle : Nat → List SourceRow → List Correction)
    (dfIn : List SourceRow) (dfOut : List PersistedRow) :
    procesarRun false oracle dfIn dfOut
      = ⟨[], [], .error .missingApiKey⟩ := rfl

theorem procesarRun_noTodo {oracle : Nat → List SourceRow → List Correction}
    {dfIn : List SourceRow} {dfOut : List PersistedRow}
    (h : dfTodo dfIn dfOut = []) :
    procesarRun true oracle dfIn dfOut
      = ⟨[.readInput, .readPersisted, .writePersisted], [],
          .ok (List.insertionSort leById dfOut)⟩ := by
  rw [procesarRun, if_neg (by simp)]
  simp only [h, List.isEmpty_nil, if_true]

theorem procesarRun_err {oracle : Nat → List SourceRow → List Correction}
    {dfIn : List SourceRow} {dfOut : List PersistedRow}
    (h : ¬ dfTodo dfIn dfOut = [])
    (hres : (runLoop oracle 1 MAX_ATTEMPTS [] (dfTodo dfIn dfOut)).results = []) :
    procesarRun true oracle dfIn dfOut
      = ⟨[.readInput, .readPersisted]
            ++ ((runLoop oracle 1 MAX_ATTEMPTS []
              (dfTodo dfIn dfOut)).batches.flatten.map Ev.oracleCall),
          (runLoop oracle 1 MAX_ATTEMPTS [] (dfTodo dfIn dfOut)).batches,
          .error .noCorrections⟩ := by
  have h1 : ¬ (dfTodo dfIn dfOut).isEmpty = true := by
    rw [List.isEmpty_iff]
    exact h
  have h2 : (runLoop oracle 1 MAX_ATTEMPTS [] (dfTodo dfIn dfOut)).results.isEmpty = true := by
    rw [List.isEmpty_iff]
    exact hres
  rw [procesarRun, if_neg (by simp), if_neg h1]
  simp only [h2, if_true]

theorem procesarRun_run {oracle : Nat → List SourceRow → List Correction}
    {dfIn : List SourceRow} {dfOut : List PersistedRow}
    (h : ¬ dfTodo dfIn dfOut = [])
    (hres : ¬ (runLoop oracle 1 MAX_ATTEMPTS [] (dfTodo dfIn dfOut)).results = []) :
    procesarRun true oracle dfIn dfOut
      = ⟨[.readInput, .readPersisted]
            ++ ((runLoop oracle 1 MAX_ATTEMPTS []
              (dfTodo dfIn dfOut)).batches.flatten.map Ev.oracleCall)
            ++ [.writePersisted],
          (runLoop oracle 1 MAX_ATTEMPTS [] (dfTodo dfIn dfOut)).batches,
          .ok (if dfOut.isEmpty then
              mergeFromScratch dfIn (runLoop oracle 1 MAX_ATTEMPTS [] (dfTodo dfIn dfOut)).results
            else merge dfIn dfOut
              (runLoop oracle 1 MAX_ATTEMPTS [] (dfTodo dfIn dfOut)).results)⟩ := by
  have h1 : ¬ (dfTodo dfIn dfOut).isEmpty = true := by
    rw [List.isEmpty_iff]
    exact h
  have h2 : ¬ (runLoop oracle 1 MAX_ATTEMPTS [] (dfTodo dfIn dfOut)).results.isEmpty = true := by
    rw [List.isEmpty_iff]
    exact hres
  rw [procesarRun, if_neg (by simp), if_neg h1, if_neg h2]

theorem procesarRun_batches_mem {oracle : Nat → List SourceRow → List Correction}
    {dfIn : List SourceRow} {dfOut : List PersistedRow} {b : List SourceRow}
    {x : SourceRow}
    (hb : b ∈ (procesarRun true oracle dfIn dfOut).batches.flatten)
    (hx : x ∈ b) : x ∈ dfTodo dfIn dfOut := by
  by_cases ht : dfTodo dfIn dfOut = []
  · rw [procesarRun_noTodo ht] at hb
    cases hb
  · by_cases hres : (runLoop oracle 1 MAX_ATTEMPTS [] (dfTodo dfIn dfOut)).results = []
    · rw [procesarRun_err ht hres] at hb
      exact runLoop_batches_mem hb hx
    · rw [procesarRun_run ht hres] at hb
      exact runLoop_batches_mem hb hx

theorem dfTodo_mem {dfIn : List SourceRow} {dfOut : List PersistedRow} {x : SourceRow}
    (hx : x ∈ dfTodo dfIn dfOut) :
    x ∈ dfIn ∧ (¬ dfOut = []
      → ∃ r ∈ dfOut, r.id = x.id ∧ r.observaciones_final = none) := by
  rw [dfTodo] at hx
  by_cases he : dfOut.isEmpty
  · rw [if_pos he] at hx
    exact ⟨hx, fun hne => absurd (List.isEmpty_iff.mp he) hne⟩
  · rw [if_neg he] at hx
    rcases List.mem_filter.mp hx with ⟨hxin, hany⟩
    refine ⟨hxin, fun hnone => ?hrow⟩
    rcases List.any_eq_true.mp hany with ⟨r, hr, hcond⟩
    have hcond' : r.id = x.id ∧ r.observaciones_final = none := by simpa using hcond
    exact ⟨r, hr, hcond'.1, hcond'.2⟩

/-! ### Claims -/

/-- Claim C1: for every source table and persisted table (key-unique, as
loaded) and every record id present in both, if the source record's text
differs from the persisted record's `observaciones_original`, then the
output of `preparar` contains the record with that id carrying the current
source text as `observaciones_original` and an absent
`observaciones_final`. -/
theorem c1_change_invalidation {dfIn : List SourceRow} {dfOut : List PersistedRow}
    (hIn : (dfIn.map (fun s : SourceRow => s.id)).Nodup)
    (hOut : (dfOut.map (fun r : PersistedRow => r.id)).Nodup)
    {src : SourceRow} (hs : src ∈ dfIn) {r : PersistedRow} (hr : r ∈ dfOut)
    (hid : r.id = src.id) (hne : src.observaciones ≠ r.observaciones_original) :
    ({ id := src.id,
       observaciones_original := src.observaciones,
       observaciones_final := none } : PersistedRow) ∈ preparar dfIn dfOut := by
  apply (preparar_mem_iff hIn hOut).mpr
  apply List.mem_append_left
  rw [prepararStep2]
  apply List.mem_map.mpr
  refine ⟨r, List.mem_filter.mpr ⟨hr, List.any_eq_true.mpr ⟨src, hs, by simp [hid]⟩⟩, ?upd⟩
  have hls : lookupSource dfIn r.id = some src := by
    rw [hid]
    exact lookupSource_eq_of_mem hIn hs
  simp only [prepararUpdate, hls]
  rw [if_pos hne, hid]

/-- Witness for C1, on the spec's concrete staleness scenario. -/
theorem c1_witness :
    ({ id := 5,
       observaciones_original := "foo bar",
       observaciones_final := none } : PersistedRow)
      ∈ preparar [⟨5, "foo bar"⟩] [⟨5, "foo", some "Foo."⟩] :=
  @c1_change_invalidation [⟨5, "foo bar"⟩] [⟨5, "foo", some "Foo."⟩]
    (by decide) (by decide) ⟨5, "foo bar"⟩ (by decide) ⟨5, "foo", some "Foo."⟩
    (by decide) (by decide) (by decide)

/-- Claim C2: for every source table and persisted table (key-unique, as
loaded), the ids of the output of `preparar` are exactly the ids of the
source table, each appearing exactly once. -/
theorem c2_conservation {dfIn : List SourceRow} {dfOut : List PersistedRow}
    (hIn : (dfIn.map (fun s : SourceRow => s.id)).Nodup)
    (hOut : (dfOut.map (fun r : PersistedRow => r.id)).Nodup) :
    ((preparar dfIn dfOut).map (fun r : PersistedRow => r.id)).Nodup
    ∧ ∀ i : Int, i ∈ (preparar dfIn dfOut).map (fun r : PersistedRow => r.id)
        ↔ i ∈ dfIn.map (fun s : SourceRow => s.id) :=
  ⟨preparar_ids_nodup hIn hOut, preparar_mem_ids hIn hOut⟩

/-- Witness for C2: a run with one kept id, one removed id and one new id. -/
theorem c2_witness :
    ((preparar [⟨1, "a"⟩, ⟨2, "b"⟩] [⟨2, "x", some "X"⟩, ⟨3, "y", none⟩]).map
      (fun r : PersistedRow => r.id)).Nodup
    ∧ ((3 : Int) ∈ (preparar [⟨1, "a"⟩, ⟨2, "b"⟩]
          [⟨2, "x", some "X"⟩, ⟨3, "y", none⟩]).map (fun r : PersistedRow => r.id)
        ↔ (3 : Int) ∈ ([⟨1, "a"⟩, ⟨2, "b"⟩] : List SourceRow).map
            (fun s : SourceRow => s.id)) :=
  ⟨(c2_conservation (by decide) (by decide)).1,
    (c2_conservation (by decide) (by decide)).2 3⟩

/-- Claim C8: reconciliation is idempotent — reconciling the source against
the table `preparar` itself just produced yields that table unchanged. -/
theorem c8_idempotent {dfIn : List SourceRow} {dfOut : List PersistedRow}
    (hIn : (dfIn.map (fun s : SourceRow => s.id)).Nodup)
    (hOut : (dfOut.map (fun r : PersistedRow => r.id)).Nodup) :
    preparar dfIn (preparar dfIn dfOut) = preparar dfIn dfOut := by
  apply preparar_fix
  · exact preparar_ids_nodup hIn hOut
  · exact preparar_sorted dfIn dfOut
  · intro r hr
    exact (preparar_mem_ids hIn hOut r.id).mp (List.mem_map_of_mem _ hr)
  · intro r hr s hls
    rcases preparar_orig hIn hOut hr with ⟨u, hlu, huo⟩
    have hus : u = s := Option.some.inj (hlu.symm.trans hls)
    rw [← hus]
    exact huo
  · intro i hi
    exact (preparar_mem_ids hIn hOut i).mpr hi

/-- Witness for C8, with a changed, a removed and a new record. -/
theorem c8_witness :
    preparar [⟨1, "a"⟩, ⟨2, "b"⟩]
        (preparar [⟨1, "a"⟩, ⟨2, "b"⟩] [⟨2, "x", some "X"⟩, ⟨3, "y", none⟩])
      = preparar [⟨1, "a"⟩, ⟨2, "b"⟩] [⟨2, "x", some "X"⟩, ⟨3, "y", none⟩] :=
  c8_idempotent (by decide) (by decide)

/-- Claim C4: every failing oracle call — a raised exception, an empty
response text, a response that is not valid JSON, a decoded JSON value that
is not a list, or a decoded list containing an item with both keys but
invalid field types (a schema violation aborting the pydantic parse) —
yields an empty correction list for the batch; `callBatch` being total,
no failure propagates to the retry loop. -/
theorem c4_oracle_failure_empty (o : CallOutcome)
    (h : o = CallOutcome.exn
      ∨ ∃ r, o = CallOutcome.resp r ∧ r.parsed = none
        ∧ (r.text = RespText.empty ∨ r.text = RespText.invalid
          ∨ (∃ v, r.text = RespText.json v ∧ ∀ items, v ≠ JValue.list items)
          ∨ (∃ items, r.text = RespText.json (JValue.list items)
              ∧ parseItems items = none))) :
    callBatch o = [] := by
  rcases h with rfl | ⟨r, rfl, hp, ht⟩
  · rfl
  · simp only [callBatch, hp]
    rcases ht with he | hi | ⟨v, hv, hnl⟩ | ⟨items, hi2, hpn⟩
    · rw [he]
      rfl
    · rw [hi]
      rfl
    · rw [hv]
      cases v with
      | list items => exact absurd rfl (hnl items)
      | null => rfl
      | bool b => rfl
      | int n => rfl
      | str s => rfl
      | dict fields => rfl
    · rw [hi2]
      simp only [parseTextCorrections, hpn]

/-- Witness for C4: a raised call, and a schema-violating response item
(a string id), each yield the empty correction list. -/
theorem c4_witness :
    callBatch CallOutcome.exn = []
    ∧ callBatch (CallOutcome.resp ⟨none, RespText.json (JValue.list
        [JValue.dict [("id", JValue.str "1"), ("observaciones_final", JValue.str "x")]])⟩)
      = [] :=
  ⟨c4_oracle_failure_empty CallOutcome.exn (Or.inl rfl),
    c4_oracle_failure_empty _ (Or.inr ⟨_, rfl, rfl, Or.inr (Or.inr (Or.inr ⟨_, rfl, rfl⟩))⟩)⟩

/-- Counterexample to C5 as stated: record 1 is not a key of the (empty)
results map, yet the merge changes its `observaciones_original` (the merge
re-syncs originals to the current source text), so the persisted table is
not returned unchanged. -/
theorem c5_counterexample :
    merge [⟨1, "b"⟩] [⟨1, "a", some "A"⟩] []
        = [({ id := 1,
              observaciones_original := "b",
              observaciones_final := some "A" } : PersistedRow)]
      ∧ ¬ (merge [⟨1, "b"⟩] [⟨1, "a", some "A"⟩] []
        = [({ id := 1,
              observaciones_original := "a",
              observaciones_final := some "A" } : PersistedRow)]) := by
  constructor
  · rfl
  · decide

/-- Claim C5 (amended): in the merge, every persisted record whose id is a
key of the results map gets `observaciones_final` set to the mapped value,
and records whose id is absent keep their `observaciones_final`; but
`observaciones_original` is re-synchronized to the current source text for
every id still present in the source.  Merging an empty results map returns
the persisted table (sorted by id) only when the stored originals already
match the source. -/
theorem c5_merge_amended {dfIn : List SourceRow} {dfOut : List PersistedRow}
    {results : List (Int × String)}
    (hOut : (dfOut.map (fun r : PersistedRow => r.id)).Nodup) :
    (∀ r ∈ dfOut,
      ∃ r' ∈ merge dfIn dfOut results, r'.id = r.id
        ∧ r'.observaciones_final
            = (match dictFind results r.id with
               | some v => some v
               | none => r.observaciones_final)
        ∧ r'.observaciones_original
            = (match lookupSource dfIn r.id with
               | some s => s.observaciones
               | none => r.observaciones_original))
    ∧ ((∀ r ∈ dfOut, ∀ s, lookupSource dfIn r.id = some s
          → s.observaciones = r.observaciones_original)
        → merge dfIn dfOut [] = List.insertionSort leById dfOut) := by
  constructor
  · intro r hr
    exact ⟨mergeRow dfIn results r, mergeRow_mem_merge hOut hr, rfl, rfl, rfl⟩
  · intro hsync
    have hrow : ∀ r ∈ dfOut, mergeRow dfIn [] r = r := by
      intro r hr
      rcases hls : lookupSource dfIn r.id with _ | s
      · simp [mergeRow, hls, dictFind]
      · simp [mergeRow, hls, dictFind, hsync r hr s hls]
    rw [merge_eq_map hOut, List.map_congr_left hrow]
    simp

/-- Witness for C5 (amended), at a state with one resolved id, one pending
id picked up by the results map, and originals in sync. -/
theorem c5_witness :
    (∀ r ∈ ([⟨1, "a", some "A"⟩, ⟨2, "b", none⟩] : List PersistedRow),
      ∃ r' ∈ merge [⟨1, "a"⟩, ⟨2, "b"⟩] [⟨1, "a", some "A"⟩, ⟨2, "b", none⟩] [(2, "B")],
        r'.id = r.id
        ∧ r'.observaciones_final
            = (match dictFind [(2, "B")] r.id with
               | some v => some v
               | none => r.observaciones_final)
        ∧ r'.observaciones_original
            = (match lookupSource [⟨1, "a"⟩, ⟨2, "b"⟩] r.id with
               | some s => s.observaciones
               | none => r.observaciones_original))
    ∧ ((∀ r ∈ ([⟨1, "a", some "A"⟩, ⟨2, "b", none⟩] : List PersistedRow), ∀ s,
          lookupSource [⟨1, "a"⟩, ⟨2, "b"⟩] r.id = some s
          → s.observaciones = r.observaciones_original)
        → merge [⟨1, "a"⟩, ⟨2, "b"⟩] [⟨1, "a", some "A"⟩, ⟨2, "b", none⟩] []
            = List.insertionSort leById [⟨1, "a", some "A"⟩, ⟨2, "b", none⟩]) :=
  c5_merge_amended (by decide)

/-- Claim C6: within a single retry run over an id-unique pending set, an id
recorded in the accumulated results map by the end of attempt `m` is never
included in any batch dispatched during the remaining `n` attempts, and its
recorded text is never overwritten: the final map agrees with the map after
attempt `m` on that id. -/
theorem c6_no_redispatch (oracle : Nat → List SourceRow → List Correction)
    (m n : Nat) (pending : List SourceRow)
    (hN : (pending.map (fun x : SourceRow => x.id)).Nodup) (i : Int)
    (hi : i ∈ dictKeys (runLoop oracle 1 m [] pending).results) :
    (∀ b ∈ (runLoop oracle (1 + m) n (runLoop oracle 1 m [] pending).results
        (runLoop oracle 1 m [] pending).remaining).batches.flatten,
      ∀ x ∈ b, ¬ x.id = i)
    ∧ dictFind (runLoop oracle 1 (m + n) [] pending).results i
        = dictFind (runLoop oracle 1 m [] pending).results i := by
  have hD0 : ∀ j ∈ dictKeys ([] : List (Int × String)),
      ¬ j ∈ pending.map (fun x : SourceRow => x.id) := by
    intro j hj
    cases hj
  have hN' : ((runLoop oracle 1 m [] pending).remaining.map
      (fun x : SourceRow => x.id)).Nodup := runLoop_nodup_remaining hN
  have hD' := @runLoop_disjoint oracle 1 m [] pending hN hD0
  constructor
  · intro b hb x hx he
    exact hD' i hi (List.mem_map.mpr ⟨x, runLoop_batches_mem hb hx, he⟩)
  · rw [runLoop_add oracle m n 1 [] pending]
    exact runLoop_find hN' hD' hi

/-- Witness for C6: id 1 is answered on attempt 1 and the oracle keeps
answering it; after the first of three attempts id 1 is in the map, is not
dispatched again, and keeps its first recorded text. -/
theorem c6_witness :
    (1 : Int) ∈ dictKeys (runLoop
        (fun _ _ => [⟨1, "first"⟩]) 1 1 [] [⟨1, "a"⟩, ⟨2, "b"⟩]).results
    ∧ ((∀ b ∈ (runLoop (fun _ _ => [⟨1, "first"⟩]) (1 + 1) 2
          (runLoop (fun _ _ => [⟨1, "first"⟩]) 1 1 [] [⟨1, "a"⟩, ⟨2, "b"⟩]).results
          (runLoop (fun _ _ => [⟨1, "first"⟩]) 1 1 [] [⟨1, "a"⟩, ⟨2, "b"⟩]).remaining).batches.flatten,
        ∀ x ∈ b, ¬ x.id = 1)
      ∧ dictFind (runLoop (fun _ _ => [⟨1, "first"⟩]) 1 (1 + 2) [] [⟨1, "a"⟩, ⟨2, "b"⟩]).results 1
          = dictFind (runLoop (fun _ _ => [⟨1, "first"⟩]) 1 1 [] [⟨1, "a"⟩, ⟨2, "b"⟩]).results 1) :=
  ⟨by decide,
    c6_no_redispatch (fun _ _ => [⟨1, "first"⟩]) 1 2 [⟨1, "a"⟩, ⟨2, "b"⟩]
      (by decide) 1 (by decide)⟩

/-- Claim C7: across a full retry-controller run with `max_attempts = N`
over an id-unique pending set, any given id is contained in at most `N` of
the dispatched batches. -/
theorem c7_at_most_attempts (oracle : Nat → List SourceRow → List Correction)
    (N : Nat) (pending : List SourceRow)
    (hN : (pending.map (fun x : SourceRow => x.id)).Nodup) (i : Int) :
    countIn i (runLoop oracle 1 N [] pending).batches.flatten ≤ N :=
  runLoop_count hN

/-- Witness for C7: an always-failing oracle dispatches id 1 exactly once
per attempt, within the bound of `MAX_ATTEMPTS = 3`. -/
theorem c7_witness :
    countIn 1 (runLoop (fun _ _ => []) 1 3 [] [⟨1, "a"⟩]).batches.flatten ≤ 3 :=
  c7_at_most_attempts (fun _ _ => []) 3 [⟨1, "a"⟩] (by decide) 1

/-- Counterexample to C3 as stated: a non-empty pending set (one record,
empty persisted table) whose corrections all fail for every attempt makes
`procesar` raise `RuntimeError("No se generaron correcciones.")` instead of
completing successfully. -/
theorem c3_counterexample :
    (procesarRun true (fun _ _ => []) [⟨1, "a"⟩] []).output
      = .error .noCorrections := by
  rfl

/-- Claim C3 (amended): provided the retry loop obtained at least one
correction, `procesar` completes successfully even when some pending ids
remain without a correction, and every persisted row whose id got no
correction keeps its (absent) `observaciones_final` in the written table;
when no correction at all was obtained, `procesar` raises instead. -/
theorem c3_unresolved_nonfatal {oracle : Nat → List SourceRow → List Correction}
    {dfIn : List SourceRow} {dfOut : List PersistedRow}
    (hOut : (dfOut.map (fun r : PersistedRow => r.id)).Nodup)
    (hres : ¬ (runLoop oracle 1 MAX_ATTEMPTS [] (dfTodo dfIn dfOut)).results = []) :
    ∃ out, (procesarRun true oracle dfIn dfOut).output = .ok out
      ∧ ∀ r ∈ dfOut,
          dictFind (runLoop oracle 1 MAX_ATTEMPTS [] (dfTodo dfIn dfOut)).results r.id = none
          → ∃ r' ∈ out, r'.id = r.id
              ∧ r'.observaciones_final = r.observaciones_final := by
  have htodo : ¬ dfTodo dfIn dfOut = [] := by
    intro h
    apply hres
    rw [h, runLoop_nil]
  rw [procesarRun_run htodo hres]
  by_cases hOutE : dfOut.isEmpty
  · have hnil : dfOut = [] := List.isEmpty_iff.mp hOutE
    refine ⟨mergeFromScratch dfIn
      (runLoop oracle 1 MAX_ATTEMPTS [] (dfTodo dfIn dfOut)).results, by simp [hOutE], ?_⟩
    intro r hr
    rw [hnil] at hr
    cases hr
  · refine ⟨merge dfIn dfOut
      (runLoop oracle 1 MAX_ATTEMPTS [] (dfTodo dfIn dfOut)).results, by simp [hOutE], ?_⟩
    intro r hr hfind
    refine ⟨mergeRow dfIn _ r, mergeRow_mem_merge hOut hr, rfl, ?_⟩
    simp [mergeRow, hfind]

/-- Witness for C3 (amended): the oracle answers id 1 and never id 2; the
run returns `ok` and id 2 stays pending. -/
theorem c3_witness :
    ¬ (runLoop (fun _ _ => [⟨1, "A"⟩]) 1 MAX_ATTEMPTS []
        (dfTodo [⟨1, "a"⟩, ⟨2, "b"⟩] [⟨1, "a", none⟩, ⟨2, "b", none⟩])).results = []
    ∧ ∃ out, (procesarRun true (fun _ _ => [⟨1, "A"⟩])
          [⟨1, "a"⟩, ⟨2, "b"⟩] [⟨1, "a", none⟩, ⟨2, "b", none⟩]).output = .ok out
        ∧ ∀ r ∈ ([⟨1, "a", none⟩, ⟨2, "b", none⟩] : List PersistedRow),
            dictFind (runLoop (fun _ _ => [⟨1, "A"⟩]) 1 MAX_ATTEMPTS []
              (dfTodo [⟨1, "a"⟩, ⟨2, "b"⟩] [⟨1, "a", none⟩, ⟨2, "b", none⟩])).results r.id = none
            → ∃ r' ∈ out, r'.id = r.id
                ∧ r'.observaciones_final = r.observaciones_final :=
  ⟨by decide, c3_unresolved_nonfatal (by decide) (by decide)⟩

/-- Counterexample to C9 as stated: with the credential absent and the input
file present, the full run (`main`) performs `preparar`'s dataset reads and
its write of the persisted table before the credential error is raised by
`procesar`. -/
theorem c9_counterexample :
    (mainRun true false (fun _ _ => []) [⟨1, "a"⟩] []).2 = .error .missingApiKey
    ∧ Ev.readInput ∈ (mainRun true false (fun _ _ => []) [⟨1, "a"⟩] []).1
    ∧ Ev.writePersisted ∈ (mainRun true false (fun _ _ => []) [⟨1, "a"⟩] []).1 := by
  refine ⟨rfl, ?_, ?_⟩ <;> decide

/-- Claim C9 (amended): `procesar` itself checks the credential before any
of its own dataset I/O — with the credential absent it raises the
configuration error having performed no reads, no writes and no oracle
calls; but the run's entry point executes `preparar` (which reads both
tables and writes the persisted table) before that check, so the run as a
whole does touch the datasets first. -/
theorem c9_credential_preflight (oracle : Nat → List SourceRow → List Correction)
    (dfIn : List SourceRow) (dfOut : List PersistedRow)
    (rawIn : List SourceRow) (rawOut : List PersistedRow) :
    procesarRun false oracle dfIn dfOut = ⟨[], [], .error .missingApiKey⟩
    ∧ (mainRun true false oracle rawIn rawOut).2 = .error .missingApiKey
    ∧ (mainRun true false oracle rawIn rawOut).1
        = [Ev.readInput, Ev.readPersisted, Ev.writePersisted] :=
  ⟨rfl, rfl, by simp [mainRun, procesarRun_nokey]⟩

/-- Claim C10: `procesar` dispatches only records of the current source
table whose id has a pending persisted row (so the text sent is the current
source text); a pending persisted id absent from the source is never
dispatched and its row is written back unchanged; and when the pending
intersection is empty no oracle call is made and the persisted table is
rewritten unchanged except for sorting by id. -/
theorem c10_dispatch_pending_only {oracle : Nat → List SourceRow → List Correction}
    {dfIn : List SourceRow} {dfOut : List PersistedRow}
    (hOut : (dfOut.map (fun r : PersistedRow => r.id)).Nodup) :
    (∀ b ∈ (procesarRun true oracle dfIn dfOut).batches.flatten, ∀ x ∈ b,
      x ∈ dfIn ∧ (¬ dfOut = []
        → ∃ r ∈ dfOut, r.id = x.id ∧ r.observaciones_final = none))
    ∧ (∀ r ∈ dfOut, r.observaciones_final = none
        → ¬ r.id ∈ dfIn.map (fun s : SourceRow => s.id)
        → (∀ b ∈ (procesarRun true oracle dfIn dfOut).batches.flatten,
              ∀ x ∈ b, ¬ x.id = r.id)
          ∧ ∀ out, (procesarRun true oracle dfIn dfOut).output = .ok out → r ∈ out)
    ∧ (dfTodo dfIn dfOut = []
        → (procesarRun true oracle dfIn dfOut).batches = []
          ∧ (procesarRun true oracle dfIn dfOut).output
              = .ok (List.insertionSort leById dfOut)) := by
  refine ⟨?ha, ?hb, ?hc⟩
  case ha =>
    intro b hb x hx
    exact dfTodo_mem (procesarRun_batches_mem hb hx)
  case hb =>
    intro r hr hpend hnid
    constructor
    · intro b hb x hx he
      have hxin := (dfTodo_mem (procesarRun_batches_mem hb hx)).1
      exact hnid (he ▸ List.mem_map.mpr ⟨x, hxin, rfl⟩)
    · intro out hout
      by_cases ht : dfTodo dfIn dfOut = []
      · rw [procesarRun_noTodo ht] at hout
        have : out = List.insertionSort leById dfOut := by
          cases hout
          rfl
        rw [this]
        exact (List.perm_insertionSort _ _).mem_iff.mpr hr
      · by_cases hres : (runLoop oracle 1 MAX_ATTEMPTS [] (dfTodo dfIn dfOut)).results = []
        · rw [procesarRun_err ht hres] at hout
          cases hout
        · rw [procesarRun_run ht hres] at hout
          have hOutE : ¬ dfOut.isEmpty = true := by
            rw [List.isEmpty_iff]
            intro hnil
            rw [hnil] at hr
            cases hr
          rw [if_neg hOutE] at hout
          have hout' : out = merge dfIn dfOut
              (runLoop oracle 1 MAX_ATTEMPTS [] (dfTodo dfIn dfOut)).results := by
            cases hout
            rfl
          have hfind : dictFind (runLoop oracle 1 MAX_ATTEMPTS []
              (dfTodo dfIn dfOut)).results r.id = none := by
            apply dictFind_eq_none
            intro hkey
            rcases runLoop_keys_sub hkey with hk | hk
            · cases hk
            · rcases List.mem_map.mp hk with ⟨x, hxtodo, hxid⟩
              exact hnid (hxid ▸ List.mem_map.mpr ⟨x, (dfTodo_mem hxtodo).1, rfl⟩)
          have hlook : lookupSource dfIn r.id = none := lookupSource_eq_none hnid
          have hfix : mergeRow dfIn (runLoop oracle 1 MAX_ATTEMPTS []
              (dfTodo dfIn dfOut)).results r = r := by
            simp [mergeRow, hfind, hlook]
          rw [hout']
          rw [← hfix]
          exact mergeRow_mem_merge hOut hr
  case hc =>
    intro ht
    rw [procesarRun_noTodo ht]
    exact ⟨rfl, rfl⟩

/-- Witness for C10: id 7 is pending but no longer in the source; id 1 is
pending and dispatched; id 7's row is written back unchanged. -/
theorem c10_witness :
    (∀ b ∈ (procesarRun true (fun _ _ => [⟨1, "A"⟩])
        [⟨1, "a"⟩] [⟨1, "a", none⟩, ⟨7, "z", none⟩]).batches.flatten, ∀ x ∈ b,
      x ∈ ([⟨1, "a"⟩] : List SourceRow)
        ∧ (¬ ([⟨1, "a", none⟩, ⟨7, "z", none⟩] : List PersistedRow) = []
          → ∃ r ∈ ([⟨1, "a", none⟩, ⟨7, "z", none⟩] : List PersistedRow),
              r.id = x.id ∧ r.observaciones_final = none))
    ∧ (∀ r ∈ ([⟨1, "a", none⟩, ⟨7, "z", none⟩] : List PersistedRow),
        r.observaciones_final = none
        → ¬ r.id ∈ ([⟨1, "a"⟩] : List SourceRow).map (fun s : SourceRow => s.id)
        → (∀ b ∈ (procesarRun true (fun _ _ => [⟨1, "A"⟩])
              [⟨1, "a"⟩] [⟨1, "a", none⟩, ⟨7, "z", none⟩]).batches.flatten,
              ∀ x ∈ b, ¬ x.id = r.id)
          ∧ ∀ out, (procesarRun true (fun _ _ => [⟨1, "A"⟩])
              [⟨1, "a"⟩] [⟨1, "a", none⟩, ⟨7, "z", none⟩]).output = .ok out → r ∈ out)
    ∧ (dfTodo [⟨1, "a"⟩] [⟨1, "a", none⟩, ⟨7, "z", none⟩] = []
        → (procesarRun true (fun _ _ => [⟨1, "A"⟩])
              [⟨1, "a"⟩] [⟨1, "a", none⟩, ⟨7, "z", none⟩]).batches = []
          ∧ (procesarRun true (fun _ _ => [⟨1, "A"⟩])
              [⟨1, "a"⟩] [⟨1, "a", none⟩, ⟨7, "z", none⟩]).output
              = .ok (List.insertionSort leById [⟨1, "a", none⟩, ⟨7, "z", none⟩])) :=
  c10_dispatch_pending_only (by decide)

end Obs
